import Mathlib

/-!
# Verification of the stompest STOMP client (AMQMessageProducer repository)

A shallow embedding of the repository's STOMP wire-frame parser
(`src/stompest/protocol/parser.py`, `src/stompest/protocol/spec.py`) and of
the decision logic of the asynchronous client
(`src/stompest/async/client.py`), together with theorems settling the
specification's claims about them.

Python strings are modelled as `String` / `List Char`; Python `dict`
(string keys) as an association list whose assignment overwrites an
existing key in place; exceptions as `Except` results that also carry the
parser state left behind by the raising call.
-/

namespace Stompest

/-! ## Protocol constants (`src/stompest/protocol/spec.py`) -/

/-- The two STOMP protocol versions the repository supports
(`StompSpec.VERSIONS`). -/
inductive Version
  | v1_0
  | v1_1
deriving DecidableEq, Repr

namespace StompSpec

def LINE_DELIMITER : Char := '\n'
def FRAME_DELIMITER : Char := '\x00'
def HEADER_SEPARATOR : Char := ':'
def CONTENT_LENGTH_HEADER : String := "content-length"

/-- `StompSpec.CLIENT_COMMANDS` from spec.py. -/
def CLIENT_COMMANDS (v : Version) : List String :=
  match v with
  | .v1_0 => ["ABORT", "ACK", "BEGIN", "COMMIT", "CONNECT", "DISCONNECT",
              "SEND", "SUBSCRIBE", "UNSUBSCRIBE"]
  | .v1_1 => ["ABORT", "ACK", "BEGIN", "COMMIT", "CONNECT", "DISCONNECT",
              "NACK", "SEND", "STOMP", "SUBSCRIBE", "UNSUBSCRIBE"]

/-- `StompSpec.SERVER_COMMANDS` from spec.py. -/
def SERVER_COMMANDS (_v : Version) : List String :=
  ["CONNECTED", "ERROR", "MESSAGE", "RECEIPT"]

/-- `StompSpec.COMMANDS`: per-version union of client and server commands. -/
def COMMANDS (v : Version) : List String :=
  CLIENT_COMMANDS v ++ SERVER_COMMANDS v

end StompSpec

/-! ## Python dictionary model

The parser stores headers in a Python `dict`.  We model it as an
association list; assignment (`d[k] = v`) overwrites the value of an
existing key in place, otherwise appends. -/

abbrev Headers := List (String × String)

/-- Python `d[k] = v` on a string-keyed dict. -/
def dictSet : Headers → String → String → Headers
  | [], k, v => [(k, v)]
  | (k', v') :: rest, k, v =>
      if k' = k then (k, v) :: rest else (k', v') :: dictSet rest k v

/-- Python `d.get(k)` (`None` when absent). -/
def dictGet : Headers → String → Option String
  | [], _ => none
  | (k', v') :: rest, k => if k' = k then some v' else dictGet rest k

/-- The headers dict obtained by executing the parser's assignment
(`self._frame.headers[name] = value`) once per received header line, in
order. -/
def recordHeaders (hs : List (String × String)) : Headers :=
  hs.foldl (fun acc kv => dictSet acc kv.1 kv.2) []

/-- The value carried by the last occurrence of a name among a list of
header lines (`none` when the name never occurs). -/
def lastOcc (hs : List (String × String)) (k : String) : Option String :=
  hs.foldl (fun acc kv => if kv.1 = k then some kv.2 else acc) none

/-! ## Frames (`stompest/protocol/frame.py`; data model per spec §3) -/

/-- A STOMP frame: command, headers, body.  The body is kept as the list of
characters accumulated by the parser. -/
structure StompFrame where
  command : String
  headers : Headers
  body : List Char
deriving DecidableEq, Repr

/-- A token produced by the parser: either a frame or the distinct
heart-beat value (`StompHeartBeat`). -/
inductive StompToken
  | heartBeat
  | frame (f : StompFrame)
deriving DecidableEq, Repr

/-! ## Errors (`stompest/error.py` hierarchy, as used by the embedded code) -/

inductive StompError
  | frameError (msg : String)
  | valueError (msg : String)
  | alreadyRunning (msg : String)
  | protocolError (msg : String)
  | connectionError (msg : String)
deriving DecidableEq, Repr

/-- Python `repr` of the plain command strings that occur in error
messages (none of them contains a quote or an escape). -/
def pyReprStr (s : String) : String := "'" ++ s ++ "'"

/-- Python `int(s)` on a string: optional surrounding whitespace, an
optional sign, then at least one decimal digit; `none` models the
`ValueError` raised otherwise. -/
def digitsToNat (ds : List Char) : Option Nat :=
  if ds = [] then none
  else if ds.all Char.isDigit then
    some (ds.foldl (fun a c => 10 * a + (c.toNat - '0'.toNat)) 0)
  else none

def pyInt (s : String) : Option Int :=
  let cs := ((s.data.dropWhile Char.isWhitespace).reverse.dropWhile
    Char.isWhitespace).reverse
  match cs with
  | '-' :: ds => (digitsToNat ds).map (fun n => -(n : Int))
  | '+' :: ds => (digitsToNat ds).map (fun n => (n : Int))
  | ds => (digitsToNat ds).map (fun n => (n : Int))

/-! ## The parser state (`StompParser`, parser.py)

The mutable attributes of the `StompParser` object: the queue of parsed
tokens (`_frames`), the frame under construction (`_frame`), the
content-length (`_length`), the body-read counter (`_read`), the character
buffer (`_buffer`), and the current state (`parse` slot). -/

inductive ParserMode
  | heartBeat
  | command
  | headers
  | body
deriving DecidableEq, Repr

structure StompParser where
  version : Version
  frames : List StompToken
  frame : StompFrame
  length : Int
  readCount : Nat
  buffer : List Char
  mode : ParserMode
deriving DecidableEq, Repr

/-- A freshly constructed parser (`__init__` → `reset` → `_next` →
`_transition('heart-beat')`). -/
def StompParser.mk0 (v : Version) : StompParser :=
  { version := v, frames := [], frame := ⟨"", [], []⟩, length := -1,
    readCount := 0, buffer := [], mode := .heartBeat }

/-- `canRead()`: whether the token queue is non-empty. -/
def StompParser.canRead (p : StompParser) : Bool := !p.frames.isEmpty

/-- `get()`: pop the next token from the front of the queue, `none` when
the queue is empty. -/
def StompParser.get (p : StompParser) : Option StompToken × StompParser :=
  match p.frames with
  | [] => (none, p)
  | t :: ts => (some t, { p with frames := ts })

/-! ### The four state handlers

An exception raised by a handler leaves the parser object in its mutated
state, so the error branch carries that state alongside the error. -/

/-- `_parseCommand`: accumulate until `\n`; on the delimiter, ignore an
empty buffer, reject a command outside the version's command set (flushing
the buffer first), otherwise record the command and move to the headers
state (flushing the buffer). -/
def parseCommand (p : StompParser) (c : Char) :
    Except (StompError × StompParser) StompParser :=
  if c ≠ StompSpec.LINE_DELIMITER then
    .ok { p with buffer := p.buffer ++ [c] }
  else
    let command := String.mk p.buffer
    if command = "" then .ok p
    else if command ∈ StompSpec.COMMANDS p.version then
      .ok { p with frame := { p.frame with command := command },
                   buffer := [], mode := .headers }
    else
      .error (.frameError ("Invalid command: " ++ pyReprStr command),
              { p with buffer := [] })

/-- `_parseHeartBeat`: on a non-`\n` character, transition to the command
state (flushing the buffer) and re-feed the character; on `\n`, emit a
heart-beat token unless the version is 1.0. -/
def parseHeartBeat (p : StompParser) (c : Char) :
    Except (StompError × StompParser) StompParser :=
  if c ≠ StompSpec.LINE_DELIMITER then
    parseCommand { p with buffer := [], mode := .command } c
  else if p.version ≠ .v1_0 then
    .ok { p with frames := p.frames ++ [.heartBeat] }
  else
    .ok p

/-- `header.split(':', 1)`: the characters before the first `:` and the
characters after it; `none` when there is no separator (`ValueError`). -/
def splitHeader : List Char → Option (List Char × List Char)
  | [] => none
  | c :: rest =>
      if c = StompSpec.HEADER_SEPARATOR then some ([], rest)
      else match splitHeader rest with
        | none => none
        | some (n, v) => some (c :: n, v)

/-- `_parseHeader`: accumulate until `\n`.  A non-empty line is split at
the first `:` and assigned into the headers dict (overwriting an existing
name); an empty line reads `content-length` (default `-1`) and moves to
the body state. -/
def parseHeader (p : StompParser) (c : Char) :
    Except (StompError × StompParser) StompParser :=
  if c ≠ StompSpec.LINE_DELIMITER then
    .ok { p with buffer := p.buffer ++ [c] }
  else
    let header := p.buffer
    if header ≠ [] then
      match splitHeader header with
      | none =>
          .error (.frameError ("No separator in header line: " ++
            String.mk header), p)
      | some (n, v) =>
          .ok { p with
            frame := { p.frame with
              headers := dictSet p.frame.headers (String.mk n) (String.mk v) },
            buffer := [], mode := .headers }
    else
      match dictGet p.frame.headers StompSpec.CONTENT_LENGTH_HEADER with
      | none => .ok { p with length := -1, buffer := [], mode := .body }
      | some s =>
          match pyInt s with
          | none =>
              .error (.valueError ("invalid literal for int(): " ++ s), p)
          | some n => .ok { p with length := n, buffer := [], mode := .body }

/-- `_parseBody`: increment the read counter; append the character while
the counter has not passed `content-length` or the character is not the
frame delimiter; otherwise emit the frame and reset (`_next`). -/
def parseBody (p : StompParser) (c : Char) :
    Except (StompError × StompParser) StompParser :=
  let read := p.readCount + 1
  if ((read : Int) ≤ p.length) ∨ (c ≠ StompSpec.FRAME_DELIMITER) then
    .ok { p with readCount := read, buffer := p.buffer ++ [c] }
  else
    .ok { p with
      frames := p.frames ++ [.frame { p.frame with body := p.buffer }],
      frame := ⟨"", [], []⟩, length := -1, readCount := 0,
      buffer := [], mode := .heartBeat }

/-- `parse(character)`: dispatch on the current state. -/
def StompParser.step (p : StompParser) (c : Char) :
    Except (StompError × StompParser) StompParser :=
  match p.mode with
  | .heartBeat => parseHeartBeat p c
  | .command => parseCommand p c
  | .headers => parseHeader p c
  | .body => parseBody p c

/-- `add(data)`: feed the characters in order; an exception stops the
consumption of the remaining characters.  (Iterating a Python `str` never
yields a falsy character, so the `if not character` guard never fires on
string input.) -/
def StompParser.add (p : StompParser) :
    List Char → Except (StompError × StompParser) StompParser
  | [] => .ok p
  | c :: rest =>
      match p.step c with
      | .error e => .error e
      | .ok p' => p'.add rest

/-- Feeding a list of chunks by successive `add` calls. -/
def StompParser.addAll (p : StompParser) :
    List (List Char) → Except (StompError × StompParser) StompParser
  | [] => .ok p
  | d :: rest =>
      match p.add d with
      | .error e => .error e
      | .ok p' => p'.addAll rest

/-- The results of `n` successive `get()` calls. -/
def StompParser.getN (p : StompParser) : Nat → List (Option StompToken)
  | 0 => []
  | n + 1 =>
      let r := p.get
      r.1 :: r.2.getN n

/-! ## Wire format (spec §6)

The serialiser lives in `stompest/protocol/frame.py`, which is not among
the given source files; it is modelled from the spec's wire format. -/

/-- One header line on the wire: `name:value\n`. -/
def headerLine (name value : String) : List Char :=
  name.data ++ StompSpec.HEADER_SEPARATOR :: value.data ++
    [StompSpec.LINE_DELIMITER]

/-- Modelled from the spec: the wire format of §6 (the frame serialiser of
`stompest/protocol/frame.py`, absent from the sources):
`COMMAND\n` then one `name:value\n` line per header, then a blank line,
then the body terminated by `\x00`. -/
def serialiseFrame (f : StompFrame) : List Char :=
  f.command.data ++ StompSpec.LINE_DELIMITER ::
    ((f.headers.map fun kv => headerLine kv.1 kv.2).flatten ++
      StompSpec.LINE_DELIMITER :: f.body ++ [StompSpec.FRAME_DELIMITER])

/-- A frame that the wire format of §6 can carry faithfully: a command of
the version's command set, header names free of `:` and `\n` and values
free of `\n`, pairwise distinct header names, and a body that either
contains no `\x00` (when `content-length` is absent) or whose length is
announced by the `content-length` header. -/
def validHeaderKV (kv : String × String) : Bool :=
  kv.1.data.all (fun c => c ≠ StompSpec.HEADER_SEPARATOR &&
    c ≠ StompSpec.LINE_DELIMITER) &&
  kv.2.data.all (fun c => c ≠ StompSpec.LINE_DELIMITER)

def validFrame (v : Version) (f : StompFrame) : Bool :=
  decide (f.command ∈ StompSpec.COMMANDS v) &&
  decide ((f.headers.map Prod.fst).Nodup) &&
  f.headers.all validHeaderKV &&
  (match dictGet f.headers StompSpec.CONTENT_LENGTH_HEADER with
   | none => f.body.all (fun c => c ≠ StompSpec.FRAME_DELIMITER)
   | some s => decide (pyInt s = some (f.body.length : Int)))

/-! ## Async client decision logic (`src/stompest/async/client.py`)

The client is Twisted code; the claims about it concern pure decision
logic, embedded here as functions from the relevant state to the action
taken. -/

/-- Python `needle in hay` on strings. -/
def strContains (hay needle : List Char) : Bool :=
  match hay with
  | [] => needle.isEmpty
  | _ :: t => needle.isPrefixOf hay || strContains t needle

/-- The broker-idiosyncrasy marker tested by `Stomp._onError`. -/
def unexpectedAckMarker : String := "Unexpected ACK received for message-id"

/-- The action `Stomp._onError` takes on an inbound ERROR frame:
fail the pending connect negotiation with a `StompProtocolError`, swallow
the frame (AMQ < 5.2 workaround), or initiate a disconnect whose failure
cause is a `StompProtocolError`. -/
inductive ErrorAction
  | failNegotiation
  | swallow
  | disconnectProtocolError
deriving DecidableEq, Repr

/-- `Stomp._onError`: `connecting` is the truthiness of the
`_connecting` in-flight table (a negotiation waiter is pending). -/
def onError (connecting : Bool) (f : StompFrame) : ErrorAction :=
  if connecting then .failNegotiation
  else if strContains ((dictGet f.headers "message").getD "").data
      unexpectedAckMarker.data then .swallow
  else .disconnectProtocolError

/-- The client-state flags guarding the exclusive commands. -/
structure StompClientState where
  disconnecting : Bool
  connectPending : Bool
deriving DecidableEq, Repr

/-- `Stomp.disconnect`, entry guard (client.py lines 174-177): raise
`StompAlreadyRunningError` when a disconnect is already in flight,
otherwise record that one now is. -/
def disconnectStart (s : StompClientState) :
    Except StompError StompClientState :=
  if s.disconnecting then
    .error (.alreadyRunning "Already disconnecting")
  else
    .ok { s with disconnecting := true }

/-- Modelled from the spec: the `exclusive` decorator on `Stomp.connect`
(defined in `stompest/async/util.py`, absent from the sources) raises
`StompAlreadyRunningError` while a previous call is still pending, before
the wrapped method runs. -/
def connectStart (s : StompClientState) :
    Except StompError StompClientState :=
  if s.connectPending then
    .error (.alreadyRunning "connect still running")
  else
    .ok { s with connectPending := true }

/-! ### Heart-beat timers (`Stomp._beat` / `Stomp._beatRemaining`)

Wall-clock floats are modelled as exact rationals. -/

inductive Direction
  | client
  | server
deriving DecidableEq, Repr

/-- The session fields and thresholds read by `_beatRemaining`. -/
structure HeartBeater where
  clientHeartBeat : ℚ
  serverHeartBeat : ℚ
  lastSent : ℚ
  lastReceived : ℚ
  clientThreshold : ℚ
  serverThreshold : ℚ
deriving DecidableEq, Repr

def HeartBeater.heartBeatOf (b : HeartBeater) : Direction → ℚ
  | .client => b.clientHeartBeat
  | .server => b.serverHeartBeat

def HeartBeater.lastOf (b : HeartBeater) : Direction → ℚ
  | .client => b.lastSent
  | .server => b.lastReceived

def HeartBeater.thresholdOf (b : HeartBeater) : Direction → ℚ
  | .client => b.clientThreshold
  | .server => b.serverThreshold

/-- `DEFAULT_HEART_BEAT_THRESHOLDS = {'client': 0.8, 'server': 2.0}`. -/
def defaultThreshold : Direction → ℚ
  | .client => 8 / 10
  | .server => 2

/-- `_beatRemaining(which)`: `-1` when the direction's negotiated period
is 0, otherwise `max(threshold * heartBeat / 1000 - elapsed, 0)`. -/
def beatRemaining (b : HeartBeater) (w : Direction) (now : ℚ) : ℚ :=
  if b.heartBeatOf w = 0 then -1
  else max (b.thresholdOf w * b.heartBeatOf w / 1000 - (now - b.lastOf w)) 0

/-- The action `_beat(which)` takes after computing the remaining time. -/
inductive BeatAction
  | disabled
  | sendBeat
  | disconnectWith (e : StompError)
  | reschedule (delay : ℚ)
deriving DecidableEq, Repr

/-- `_beat(which)`: return when remaining < 0; at 0 send a heart-beat
(client) or initiate disconnect with `StompConnectionError` (server);
otherwise re-schedule after `remaining` seconds. -/
def beat (b : HeartBeater) (w : Direction) (now : ℚ) : BeatAction :=
  let remaining := beatRemaining b w now
  if remaining < 0 then .disabled
  else if remaining = 0 then
    match w with
    | .client => .sendBeat
    | .server => .disconnectWith (.connectionError "Server heart-beat timeout")
  else .reschedule remaining

/-! ### Disconnect reason (`Stomp._disconnectReason` setter) -/

/-- The `_disconnectReason` property setter: a truthy incoming reason is
kept only when no reason is recorded yet (`existing reason wins`); a
falsy (`None`) incoming reason clears the slot. -/
def setDisconnectReason (current incoming : Option StompError) :
    Option StompError :=
  match incoming with
  | none => none
  | some r =>
      match current with
      | some c => some c
      | none => some r

/-- `_onConnectionLost`, final step: the `disconnected` deferred errs back
with the recorded reason when one exists, otherwise calls back cleanly. -/
inductive DisconnectOutcome
  | success
  | failure (e : StompError)
deriving DecidableEq, Repr

def disconnectedOutcome (reason : Option StompError) : DisconnectOutcome :=
  match reason with
  | some e => .failure e
  | none => .success

/-! ## Basic lemmas about the parser -/

instance {ε α : Type} [DecidableEq ε] [DecidableEq α] :
    DecidableEq (Except ε α) := fun a b =>
  match a, b with
  | .error e, .error f =>
      if h : e = f then .isTrue (by rw [h]) else .isFalse (by simp [h])
  | .error _, .ok _ => .isFalse (by simp)
  | .ok _, .error _ => .isFalse (by simp)
  | .ok x, .ok y =>
      if h : x = y then .isTrue (by rw [h]) else .isFalse (by simp [h])

theorem string_mk_data (s : String) : String.mk s.data = s := rfl

/-- `add` splits over append: feed the first part, then (unless it raised)
the second. -/
theorem add_append (p : StompParser) (xs ys : List Char) :
    p.add (xs ++ ys) =
      match p.add xs with
      | .error e => .error e
      | .ok p' => p'.add ys := by
  induction xs generalizing p with
  | nil => simp [StompParser.add]
  | cons c rest ih =>
    simp only [List.cons_append, StompParser.add]
    cases p.step c with
    | error e => rfl
    | ok p' => exact ih p'

theorem add_append_ok (p : StompParser) (xs ys : List Char)
    (p' : StompParser) (h : p.add xs = .ok p') :
    p.add (xs ++ ys) = p'.add ys := by
  rw [add_append, h]

theorem add_append_error (p : StompParser) (xs ys : List Char)
    (e : StompError × StompParser) (h : p.add xs = .error e) :
    p.add (xs ++ ys) = .error e := by
  rw [add_append, h]

/-- Successive `add` calls are the same as one `add` of the concatenation:
the parse result does not depend on how the byte stream is split. -/
theorem addAll_eq_add_flatten (p : StompParser) (chunks : List (List Char)) :
    p.addAll chunks = p.add chunks.flatten := by
  induction chunks generalizing p with
  | nil => simp [StompParser.addAll, StompParser.add]
  | cons d rest ih =>
    simp only [StompParser.addAll, List.flatten_cons, add_append]
    cases p.add d with
    | error e => rfl
    | ok p' => exact ih p'

/-- In the command state, characters other than `\n` only accumulate in
the buffer. -/
theorem add_command_accum (v : Version) (q : List StompToken)
    (fr : StompFrame) (len : Int) (rd : Nat) (buf cs : List Char)
    (hnl : StompSpec.LINE_DELIMITER ∉ cs) :
    StompParser.add ⟨v, q, fr, len, rd, buf, .command⟩ cs =
      .ok ⟨v, q, fr, len, rd, buf ++ cs, .command⟩ := by
  induction cs generalizing buf with
  | nil => simp [StompParser.add]
  | cons c rest ih =>
    simp only [List.mem_cons, not_or] at hnl
    simp only [StompParser.add, StompParser.step, parseCommand,
      if_pos (Ne.symm hnl.1)]
    rw [ih (buf ++ [c]) hnl.2]
    simp

/-- In the headers state, characters other than `\n` only accumulate in
the buffer. -/
theorem add_header_accum (v : Version) (q : List StompToken)
    (fr : StompFrame) (len : Int) (rd : Nat) (buf cs : List Char)
    (hnl : StompSpec.LINE_DELIMITER ∉ cs) :
    StompParser.add ⟨v, q, fr, len, rd, buf, .headers⟩ cs =
      .ok ⟨v, q, fr, len, rd, buf ++ cs, .headers⟩ := by
  induction cs generalizing buf with
  | nil => simp [StompParser.add]
  | cons c rest ih =>
    simp only [List.mem_cons, not_or] at hnl
    simp only [StompParser.add, StompParser.step, parseHeader,
      if_pos (Ne.symm hnl.1)]
    rw [ih (buf ++ [c]) hnl.2]
    simp

/-- In the body state, characters other than the frame delimiter are
always appended, whatever the read counter and content-length. -/
theorem add_body_nodelim (v : Version) (q : List StompToken)
    (fr : StompFrame) (len : Int) (rd : Nat) (buf cs : List Char)
    (hnd : StompSpec.FRAME_DELIMITER ∉ cs) :
    StompParser.add ⟨v, q, fr, len, rd, buf, .body⟩ cs =
      .ok ⟨v, q, fr, len, rd + cs.length, buf ++ cs, .body⟩ := by
  induction cs generalizing rd buf with
  | nil => simp [StompParser.add]
  | cons c rest ih =>
    simp only [List.mem_cons, not_or] at hnd
    simp only [StompParser.add, StompParser.step, parseBody,
      if_pos (Or.inr (Ne.symm hnd.1))]
    rw [ih (rd + 1) (buf ++ [c]) hnd.2]
    simp only [List.length_cons, List.append_assoc, List.singleton_append,
      Except.ok.injEq, StompParser.mk.injEq, true_and, and_true]
    omega

/-- In the body state, while the read counter stays within the announced
content-length every character is appended, the frame delimiter included. -/
theorem add_body_within (v : Version) (q : List StompToken)
    (fr : StompFrame) (len : Int) (rd : Nat) (buf cs : List Char)
    (hlen : ((rd + cs.length : Nat) : Int) ≤ len) :
    StompParser.add ⟨v, q, fr, len, rd, buf, .body⟩ cs =
      .ok ⟨v, q, fr, len, rd + cs.length, buf ++ cs, .body⟩ := by
  induction cs generalizing rd buf with
  | nil => simp [StompParser.add]
  | cons c rest ih =>
    have h1 : ((rd + 1 : Nat) : Int) ≤ len := by
      simp only [List.length_cons] at hlen
      omega
    simp only [StompParser.add, StompParser.step, parseBody,
      if_pos (Or.inl h1)]
    have h2 : (((rd + 1) + rest.length : Nat) : Int) ≤ len := by
      simp only [List.length_cons] at hlen
      omega
    rw [ih (rd + 1) (buf ++ [c]) h2]
    simp only [List.length_cons, List.append_assoc, List.singleton_append,
      Except.ok.injEq, StompParser.mk.injEq, true_and, and_true]
    omega

/-- In the body state, a frame delimiter past the content-length emits the
frame with the buffered body and resets the parser to the heart-beat
state. -/
theorem step_body_delim (v : Version) (q : List StompToken)
    (fc : String) (fh : Headers) (fb : List Char) (len : Int) (rd : Nat)
    (buf : List Char) (hlen : len < ((rd + 1 : Nat) : Int)) :
    StompParser.step ⟨v, q, ⟨fc, fh, fb⟩, len, rd, buf, .body⟩
        StompSpec.FRAME_DELIMITER =
      .ok ⟨v, q ++ [.frame ⟨fc, fh, buf⟩], ⟨"", [], []⟩,
           -1, 0, [], .heartBeat⟩ := by
  simp only [StompParser.step, parseBody]
  rw [if_neg]
  push_neg
  exact ⟨by simpa using hlen, rfl⟩

/-- Splitting at the first separator recovers name and value when the
name is separator-free. -/
theorem splitHeader_append (n v : List Char)
    (hc : StompSpec.HEADER_SEPARATOR ∉ n) :
    splitHeader (n ++ StompSpec.HEADER_SEPARATOR :: v) = some (n, v) := by
  induction n with
  | nil => simp [splitHeader]
  | cons a n' ih =>
    simp only [List.mem_cons, not_or] at hc
    simp only [List.cons_append, splitHeader]
    rw [if_neg (fun h => hc.1 h.symm)]
    simp only [List.append_eq]
    rw [ih hc.2]

theorem add_cons_ok (p : StompParser) (c : Char) (cs : List Char)
    (p' : StompParser) (h : p.step c = .ok p') :
    p.add (c :: cs) = p'.add cs := by
  simp [StompParser.add, h]

theorem add_singleton (p : StompParser) (c : Char) (p' : StompParser)
    (h : p.step c = .ok p') : p.add [c] = .ok p' := by
  simp [StompParser.add, h]

theorem add_singleton_error (p : StompParser) (c : Char)
    (e : StompError × StompParser) (h : p.step c = .error e) :
    p.add [c] = .error e := by
  simp [StompParser.add, h]

/-- A `\n` in the headers state with a buffered `name:value` line records
the header by dict assignment and stays in the headers state. -/
theorem step_headers_line (v : Version) (q : List StompToken)
    (fc : String) (fh : Headers) (fb : List Char) (len : Int) (rd : Nat)
    (n vl : List Char) (hnc : StompSpec.HEADER_SEPARATOR ∉ n) :
    StompParser.step
        ⟨v, q, ⟨fc, fh, fb⟩, len, rd,
         n ++ StompSpec.HEADER_SEPARATOR :: vl, .headers⟩
        StompSpec.LINE_DELIMITER =
      .ok ⟨v, q,
           ⟨fc, dictSet fh (String.mk n) (String.mk vl), fb⟩,
           len, rd, [], .headers⟩ := by
  have h2 : n ++ StompSpec.HEADER_SEPARATOR :: vl ≠ [] := by simp
  simp only [StompParser.step, parseHeader]
  rw [if_neg (by simp : ¬StompSpec.LINE_DELIMITER ≠ StompSpec.LINE_DELIMITER)]
  simp only [if_pos h2, splitHeader_append _ _ hnc]

/-- Feeding one wire header line from the headers state records the
header by dict assignment and stays in the headers state. -/
theorem add_header_line (v : Version) (q : List StompToken)
    (fc : String) (fh : Headers) (fb : List Char) (len : Int) (rd : Nat)
    (name value : String)
    (hnc : StompSpec.HEADER_SEPARATOR ∉ name.data)
    (hnn : StompSpec.LINE_DELIMITER ∉ name.data)
    (hvn : StompSpec.LINE_DELIMITER ∉ value.data) :
    StompParser.add ⟨v, q, ⟨fc, fh, fb⟩, len, rd, [], .headers⟩
        (headerLine name value) =
      .ok ⟨v, q,
           ⟨fc, dictSet fh name value, fb⟩,
           len, rd, [], .headers⟩ := by
  have hline : headerLine name value =
      (name.data ++ StompSpec.HEADER_SEPARATOR :: value.data) ++
        [StompSpec.LINE_DELIMITER] := by
    simp [headerLine]
  have hnl : StompSpec.LINE_DELIMITER ∉
      name.data ++ StompSpec.HEADER_SEPARATOR :: value.data := by
    intro h
    rcases List.mem_append.mp h with h | h
    · exact hnn h
    · rcases List.mem_cons.mp h with h | h
      · exact absurd h (by decide)
      · exact hvn h
  rw [hline,
    add_append_ok _ _ _ _ (add_header_accum _ _ _ _ _ _ _ hnl)]
  simp only [List.nil_append]
  rw [add_singleton _ _ _ (step_headers_line _ _ _ _ _ _ _ _ _ hnc)]

/-- Feeding a list of wire header lines folds dict assignment over the
lines. -/
theorem add_header_lines (v : Version) (q : List StompToken)
    (fc : String) (fh : Headers) (fb : List Char) (len : Int) (rd : Nat)
    (hs : List (String × String))
    (hwf : ∀ kv ∈ hs, validHeaderKV kv = true) :
    StompParser.add ⟨v, q, ⟨fc, fh, fb⟩, len, rd, [], .headers⟩
        (hs.map fun kv => headerLine kv.1 kv.2).flatten =
      .ok ⟨v, q,
           ⟨fc, hs.foldl (fun acc kv => dictSet acc kv.1 kv.2) fh, fb⟩,
           len, rd, [], .headers⟩ := by
  induction hs generalizing fh with
  | nil => simp [StompParser.add]
  | cons kv rest ih =>
    have hkv := hwf kv (List.mem_cons_self kv rest)
    simp only [validHeaderKV, Bool.and_eq_true, List.all_eq_true,
      decide_eq_true_eq, Bool.and_eq_true] at hkv
    have hnc : StompSpec.HEADER_SEPARATOR ∉ kv.1.data := fun h =>
      absurd (hkv.1 _ h).1 (by simp)
    have hnn : StompSpec.LINE_DELIMITER ∉ kv.1.data := fun h =>
      absurd (hkv.1 _ h).2 (by simp)
    have hvn : StompSpec.LINE_DELIMITER ∉ kv.2.data := fun h =>
      absurd (hkv.2 _ h) (by simp)
    simp only [List.map_cons, List.flatten_cons]
    rw [add_append_ok _ _ _ _
      (add_header_line _ _ _ _ _ _ _ _ _ hnc hnn hvn)]
    rw [ih _ fun kv' h => hwf kv' (List.mem_cons_of_mem _ h)]
    simp [List.foldl_cons]

/-- Dict assignment of an absent key appends the pair. -/
theorem dictSet_absent (h : Headers) (k : String) (v : String)
    (hk : k ∉ h.map Prod.fst) :
    dictSet h k v = h ++ [(k, v)] := by
  induction h with
  | nil => rfl
  | cons kv rest ih =>
    simp only [List.map_cons, List.mem_cons, not_or] at hk
    simp only [dictSet, if_neg (Ne.symm hk.1), ih hk.2, List.cons_append]

/-- Folding dict assignment of pairwise-distinct fresh keys appends the
pairs in order. -/
theorem foldl_dictSet_nodup (hs : List (String × String)) (acc : Headers)
    (hnd : (hs.map Prod.fst).Nodup)
    (hfresh : ∀ kv ∈ hs, kv.1 ∉ acc.map Prod.fst) :
    hs.foldl (fun acc kv => dictSet acc kv.1 kv.2) acc = acc ++ hs := by
  induction hs generalizing acc with
  | nil => simp
  | cons kv rest ih =>
    simp only [List.map_cons, List.nodup_cons] at hnd
    simp only [List.foldl_cons]
    rw [dictSet_absent _ _ _ (hfresh kv (List.mem_cons_self kv rest))]
    rw [ih _ hnd.2]
    · simp
    · intro kv' h'
      simp only [List.map_append, List.mem_append, List.map_cons,
        List.map_nil, List.mem_singleton, not_or]
      refine ⟨hfresh kv' (List.mem_cons_of_mem _ h'), ?_⟩
      intro heq
      exact hnd.1 (heq ▸ List.mem_map_of_mem Prod.fst h')

/-- Every command of the per-version command set is non-empty and free of
line delimiters. -/
theorem commands_wf (v : Version) :
    ∀ c ∈ StompSpec.COMMANDS v,
      c ≠ "" ∧ StompSpec.LINE_DELIMITER ∉ c.data := by
  cases v <;> decide

/-- Feeding a known command line from the heart-beat state records the
command and moves to the headers state. -/
theorem add_command_line (v : Version) (q : List StompToken)
    (fc : String) (fh : Headers) (fb : List Char) (len : Int) (rd : Nat)
    (cmd : String) (hc : cmd ∈ StompSpec.COMMANDS v) :
    StompParser.add ⟨v, q, ⟨fc, fh, fb⟩, len, rd, [], .heartBeat⟩
        (cmd.data ++ [StompSpec.LINE_DELIMITER]) =
      .ok ⟨v, q, ⟨cmd, fh, fb⟩, len, rd, [], .headers⟩ := by
  obtain ⟨hne, hnl⟩ := commands_wf v cmd hc
  obtain ⟨a, rest, hdata⟩ : ∃ a rest, cmd.data = a :: rest := by
    cases hd : cmd.data with
    | nil => exact absurd (by cases cmd; cases hd; rfl) hne
    | cons a rest => exact ⟨a, rest, rfl⟩
  rw [hdata] at hnl
  simp only [List.mem_cons, not_or] at hnl
  have hstep : StompParser.step
      ⟨v, q, ⟨fc, fh, fb⟩, len, rd, [], .heartBeat⟩ a =
      .ok ⟨v, q, ⟨fc, fh, fb⟩, len, rd, [a], .command⟩ := by
    simp only [StompParser.step, parseHeartBeat, parseCommand]
    rw [if_pos (Ne.symm hnl.1), if_pos (Ne.symm hnl.1)]
    simp
  have hstep2 : StompParser.step
      ⟨v, q, ⟨fc, fh, fb⟩, len, rd, a :: rest, .command⟩
        StompSpec.LINE_DELIMITER =
      .ok ⟨v, q, ⟨cmd, fh, fb⟩, len, rd, [], .headers⟩ := by
    simp only [StompParser.step, parseCommand]
    rw [if_neg (by simp : ¬StompSpec.LINE_DELIMITER ≠
      StompSpec.LINE_DELIMITER)]
    rw [← hdata, string_mk_data]
    rw [if_neg hne]
    rw [if_pos hc]
  rw [hdata, List.cons_append, add_cons_ok _ _ _ _ hstep,
    add_append_ok _ _ _ _ (by
      simpa using add_command_accum v q ⟨fc, fh, fb⟩ len rd [a] rest hnl.2),
    add_singleton _ _ _ hstep2]

/-- Feeding an unknown command line from the heart-beat state raises
`Invalid command`, flushing the buffer and keeping the queue. -/
theorem add_invalid_command (v : Version) (q : List StompToken)
    (fr : StompFrame) (len : Int) (rd : Nat) (cmd : String)
    (hc : cmd ∉ StompSpec.COMMANDS v) (hne : cmd ≠ "")
    (hnl : StompSpec.LINE_DELIMITER ∉ cmd.data) :
    StompParser.add ⟨v, q, fr, len, rd, [], .heartBeat⟩
        (cmd.data ++ [StompSpec.LINE_DELIMITER]) =
      .error (.frameError ("Invalid command: " ++ pyReprStr cmd),
              ⟨v, q, fr, len, rd, [], .command⟩) := by
  obtain ⟨a, rest, hdata⟩ : ∃ a rest, cmd.data = a :: rest := by
    cases hd : cmd.data with
    | nil => exact absurd (by cases cmd; cases hd; rfl) hne
    | cons a rest => exact ⟨a, rest, rfl⟩
  rw [hdata] at hnl
  simp only [List.mem_cons, not_or] at hnl
  have hstep : StompParser.step ⟨v, q, fr, len, rd, [], .heartBeat⟩ a =
      .ok ⟨v, q, fr, len, rd, [a], .command⟩ := by
    simp only [StompParser.step, parseHeartBeat, parseCommand]
    rw [if_pos (Ne.symm hnl.1), if_pos (Ne.symm hnl.1)]
    simp
  have hstep2 : StompParser.step
      ⟨v, q, fr, len, rd, a :: rest, .command⟩ StompSpec.LINE_DELIMITER =
      .error (.frameError ("Invalid command: " ++ pyReprStr cmd),
              ⟨v, q, fr, len, rd, [], .command⟩) := by
    simp only [StompParser.step, parseCommand]
    rw [if_neg (by simp : ¬StompSpec.LINE_DELIMITER ≠
      StompSpec.LINE_DELIMITER)]
    rw [← hdata, string_mk_data]
    rw [if_neg hne]
    rw [if_neg hc]
  rw [hdata, List.cons_append, add_cons_ok _ _ _ _ hstep,
    add_append_ok _ _ _ _ (by
      simpa using add_command_accum v q fr len rd [a] rest hnl.2)]
  exact add_singleton_error _ _ _ hstep2

/-- The blank line after the headers, with no `content-length` header:
the content-length defaults to `-1` and the parser enters the body
state. -/
theorem step_blank_line_absent (v : Version) (q : List StompToken)
    (fr : StompFrame) (len : Int) (rd : Nat)
    (h : dictGet fr.headers StompSpec.CONTENT_LENGTH_HEADER = none) :
    StompParser.step ⟨v, q, fr, len, rd, [], .headers⟩
        StompSpec.LINE_DELIMITER =
      .ok ⟨v, q, fr, -1, rd, [], .body⟩ := by
  simp only [StompParser.step, parseHeader]
  rw [if_neg (by simp : ¬StompSpec.LINE_DELIMITER ≠ StompSpec.LINE_DELIMITER)]
  rw [if_neg (by simp)]
  simp only [h]

/-- The blank line after the headers, with a `content-length` header that
parses as an integer: the parser enters the body state with that
content-length. -/
theorem step_blank_line_present (v : Version) (q : List StompToken)
    (fr : StompFrame) (len : Int) (rd : Nat) (s : String) (n : Int)
    (h : dictGet fr.headers StompSpec.CONTENT_LENGTH_HEADER = some s)
    (hn : pyInt s = some n) :
    StompParser.step ⟨v, q, fr, len, rd, [], .headers⟩
        StompSpec.LINE_DELIMITER =
      .ok ⟨v, q, fr, n, rd, [], .body⟩ := by
  simp only [StompParser.step, parseHeader]
  rw [if_neg (by simp : ¬StompSpec.LINE_DELIMITER ≠ StompSpec.LINE_DELIMITER)]
  rw [if_neg (by simp)]
  simp only [h, hn]

/-- Feeding the full serialisation of one valid frame from a fresh
heart-beat state appends exactly that frame to the queue and returns the
parser to the fresh heart-beat state. -/
theorem add_serialised_frame (v : Version) (q : List StompToken)
    (f : StompFrame) (hv : validFrame v f = true) :
    StompParser.add ⟨v, q, ⟨"", [], []⟩, -1, 0, [], .heartBeat⟩
        (serialiseFrame f) =
      .ok ⟨v, q ++ [.frame f], ⟨"", [], []⟩, -1, 0, [], .heartBeat⟩ := by
  obtain ⟨fc, fh, fb⟩ := f
  simp only [validFrame, Bool.and_eq_true, decide_eq_true_eq] at hv
  obtain ⟨⟨⟨hcmd, hnd⟩, hall⟩, hbody⟩ := hv
  have hall' : ∀ kv ∈ fh, validHeaderKV kv = true := by
    simpa [List.all_eq_true] using hall
  have hser : serialiseFrame ⟨fc, fh, fb⟩ =
      (fc.data ++ [StompSpec.LINE_DELIMITER]) ++
        ((fh.map fun kv => headerLine kv.1 kv.2).flatten ++
          ([StompSpec.LINE_DELIMITER] ++
            (fb ++ [StompSpec.FRAME_DELIMITER]))) := by
    simp [serialiseFrame]
  have hfold : fh.foldl (fun acc kv => dictSet acc kv.1 kv.2) [] = fh := by
    simpa using foldl_dictSet_nodup fh [] hnd (by simp)
  rw [hser, add_append_ok _ _ _ _ (add_command_line v q "" [] [] _ _ fc hcmd)]
  rw [add_append_ok _ _ _ _ (by
    rw [add_header_lines v q fc [] [] (-1) 0 fh hall', hfold])]
  rcases hcl : dictGet fh StompSpec.CONTENT_LENGTH_HEADER with _ | s
  · rw [hcl] at hbody
    simp only [List.all_eq_true, decide_eq_true_eq] at hbody
    rw [List.singleton_append, add_cons_ok _ _ _ _
      (step_blank_line_absent v q ⟨fc, fh, []⟩ (-1) 0 hcl)]
    rw [add_append_ok _ _ _ _ (by
      simpa using add_body_nodelim v q ⟨fc, fh, []⟩ (-1) 0 [] fb
        (fun h => absurd (hbody _ h) (by simp)))]
    rw [add_singleton _ _ _ (step_body_delim v q fc fh [] (-1) _ _
      (by omega))]
  · rw [hcl] at hbody
    simp only [decide_eq_true_eq] at hbody
    rw [List.singleton_append, add_cons_ok _ _ _ _
      (step_blank_line_present v q ⟨fc, fh, []⟩ (-1) 0 s _ hcl hbody)]
    rw [add_append_ok _ _ _ _ (by
      simpa using add_body_within v q ⟨fc, fh, []⟩ (fb.length : Int) 0 [] fb
        (by simp))]
    rw [add_singleton _ _ _ (step_body_delim v q fc fh [] _ _ _
      (by push_cast; omega))]

/-- Feeding the serialisations of a list of valid frames appends exactly
those frames, in order. -/
theorem add_serialised_frames (v : Version) (q : List StompToken)
    (fs : List StompFrame) (hv : ∀ f ∈ fs, validFrame v f = true) :
    StompParser.add ⟨v, q, ⟨"", [], []⟩, -1, 0, [], .heartBeat⟩
        (fs.map serialiseFrame).flatten =
      .ok ⟨v, q ++ fs.map .frame, ⟨"", [], []⟩, -1, 0, [], .heartBeat⟩ := by
  induction fs generalizing q with
  | nil => simp [StompParser.add]
  | cons f rest ih =>
    simp only [List.map_cons, List.flatten_cons]
    rw [add_append_ok _ _ _ _
      (add_serialised_frame v q f (hv f (List.mem_cons_self f rest)))]
    rw [ih _ fun f' h => hv f' (List.mem_cons_of_mem _ h)]
    simp

/-- Successive `get()` calls return the queued tokens in FIFO order. -/
theorem getN_frames (ts : List StompToken) (p : StompParser)
    (h : p.frames = ts) : p.getN ts.length = ts.map some := by
  induction ts generalizing p with
  | nil => simp [StompParser.getN]
  | cons t rest ih =>
    simp only [List.length_cons, StompParser.getN, StompParser.get, h,
      List.map_cons, List.cons.injEq, true_and]
    exact ih _ rfl

/-- Looking up a key after one dict assignment: the assigned value for
the assigned key, the previous binding for any other key. -/
theorem dictGet_dictSet (h : Headers) (k v k' : String) :
    dictGet (dictSet h k v) k' = if k = k' then some v else dictGet h k' := by
  induction h with
  | nil => simp [dictSet, dictGet]
  | cons kv t ih =>
    obtain ⟨a, b⟩ := kv
    by_cases h1 : a = k
    · subst h1
      by_cases h2 : a = k'
      · subst h2
        simp [dictSet, dictGet]
      · simp [dictSet, dictGet, h2]
    · by_cases h2 : k = k'
      · subst h2
        simp [dictSet, dictGet, h1, ih]
      · by_cases h3 : a = k'
        · subst h3
          simp [dictSet, dictGet, h1, h2, ih]
        · simp [dictSet, dictGet, h1, h2, h3, ih]

/-- Looking up a key after folding dict assignment over a list of lines:
the value of the key's last occurrence among the lines, else the previous
binding. -/
theorem dictGet_foldl_dictSet (hs : List (String × String)) (acc : Headers)
    (k : String) :
    dictGet (hs.foldl (fun a kv => dictSet a kv.1 kv.2) acc) k =
      hs.foldl (fun a kv => if kv.1 = k then some kv.2 else a)
        (dictGet acc k) := by
  induction hs generalizing acc with
  | nil => rfl
  | cons kv t ih =>
    simp only [List.foldl_cons]
    rw [ih, dictGet_dictSet]

/-- Feeding one wire frame whose header lines may repeat names: the
emitted frame's headers are the dict obtained by assigning the lines in
order. -/
theorem add_wire_frame (v : Version) (q : List StompToken) (cmd : String)
    (hs : List (String × String)) (body : List Char)
    (hc : cmd ∈ StompSpec.COMMANDS v)
    (hwf : ∀ kv ∈ hs, validHeaderKV kv = true)
    (hbody : match dictGet (recordHeaders hs)
        StompSpec.CONTENT_LENGTH_HEADER with
      | none => StompSpec.FRAME_DELIMITER ∉ body
      | some s => pyInt s = some (body.length : Int)) :
    StompParser.add ⟨v, q, ⟨"", [], []⟩, -1, 0, [], .heartBeat⟩
        ((cmd.data ++ [StompSpec.LINE_DELIMITER]) ++
          ((hs.map fun kv => headerLine kv.1 kv.2).flatten ++
            ([StompSpec.LINE_DELIMITER] ++
              (body ++ [StompSpec.FRAME_DELIMITER])))) =
      .ok ⟨v, q ++ [.frame ⟨cmd, recordHeaders hs, body⟩], ⟨"", [], []⟩,
           -1, 0, [], .heartBeat⟩ := by
  simp only [recordHeaders] at hbody ⊢
  rw [add_append_ok _ _ _ _ (add_command_line v q "" [] [] (-1) 0 cmd hc)]
  rw [add_append_ok _ _ _ _ (add_header_lines v q cmd [] [] (-1) 0 hs hwf)]
  rcases hcl : dictGet (hs.foldl (fun acc kv => dictSet acc kv.1 kv.2) [])
      StompSpec.CONTENT_LENGTH_HEADER with _ | s
  · rw [hcl] at hbody
    rw [List.singleton_append, add_cons_ok _ _ _ _
      (step_blank_line_absent v q
        ⟨cmd, hs.foldl (fun acc kv => dictSet acc kv.1 kv.2) [], []⟩
        (-1) 0 hcl)]
    rw [add_append_ok _ _ _ _ (by
      simpa using add_body_nodelim v q
        ⟨cmd, hs.foldl (fun acc kv => dictSet acc kv.1 kv.2) [], []⟩
        (-1) 0 [] body
        (show StompSpec.FRAME_DELIMITER ∉ body from hbody))]
    rw [add_singleton _ _ _ (step_body_delim v q cmd
      (hs.foldl (fun acc kv => dictSet acc kv.1 kv.2) []) [] (-1)
      body.length body (by omega))]
  · rw [hcl] at hbody
    rw [List.singleton_append, add_cons_ok _ _ _ _
      (step_blank_line_present v q
        ⟨cmd, hs.foldl (fun acc kv => dictSet acc kv.1 kv.2) [], []⟩
        (-1) 0 s (body.length : Int) hcl
        (show pyInt s = some (body.length : Int) from hbody))]
    rw [add_append_ok _ _ _ _ (by
      simpa using add_body_within v q
        ⟨cmd, hs.foldl (fun acc kv => dictSet acc kv.1 kv.2) [], []⟩
        (body.length : Int) 0 [] body (by simp))]
    rw [add_singleton _ _ _ (step_body_delim v q cmd
      (hs.foldl (fun acc kv => dictSet acc kv.1 kv.2) []) []
      (body.length : Int) body.length body (by push_cast; omega))]

/-! ## The claims -/

/-- Claim C1, counterexample to the claim as stated: on receiving a frame
with two `foo` header lines (`foo:1` then `foo:2`), the parser's emitted
frame maps `foo` to the value `2` of the LAST occurrence, not to the value
`1` of the first occurrence demanded by the claim. -/
theorem claim_C1_counterexample :
    (StompParser.mk0 .v1_0).add ("MESSAGE\nfoo:1\nfoo:2\n\n\x00".data) =
      .ok ⟨.v1_0, [.frame ⟨"MESSAGE", [("foo", "2")], []⟩], ⟨"", [], []⟩,
           -1, 0, [], .heartBeat⟩ ∧
    dictGet [("foo", "2")] "foo" ≠ some "1" :=
  ⟨by decide, by decide⟩

/-- Claim C1 (amended): for every received frame and every header name,
the parser records the LAST value for that name (a later line with the
same name overwrites the stored value), so the emitted frame's headers
map every name — in particular every name occurring more than once — to
the value of its last occurrence among the frame's header lines. -/
theorem claim_C1_last_header_wins (v : Version) (cmd : String)
    (hs : List (String × String)) (body : List Char)
    (hc : cmd ∈ StompSpec.COMMANDS v)
    (hwf : ∀ kv ∈ hs, validHeaderKV kv = true)
    (hbody : match dictGet (recordHeaders hs)
        StompSpec.CONTENT_LENGTH_HEADER with
      | none => StompSpec.FRAME_DELIMITER ∉ body
      | some s => pyInt s = some (body.length : Int)) :
    (StompParser.mk0 v).add
        ((cmd.data ++ [StompSpec.LINE_DELIMITER]) ++
          ((hs.map fun kv => headerLine kv.1 kv.2).flatten ++
            ([StompSpec.LINE_DELIMITER] ++
              (body ++ [StompSpec.FRAME_DELIMITER])))) =
      .ok ⟨v, [.frame ⟨cmd, recordHeaders hs, body⟩], ⟨"", [], []⟩, -1, 0,
           [], .heartBeat⟩ ∧
    ∀ name, dictGet (recordHeaders hs) name = lastOcc hs name := by
  constructor
  · have h := add_wire_frame v [] cmd hs body hc hwf hbody
    rw [show StompParser.mk0 v =
      ⟨v, [], ⟨"", [], []⟩, -1, 0, [], .heartBeat⟩ from rfl]
    simpa using h
  · intro name
    simpa [recordHeaders, lastOcc, dictGet] using
      dictGet_foldl_dictSet hs [] name

def c1Lines : List (String × String) :=
  [("foo", "1"), ("bar", "x"), ("foo", "2"), ("foo", "3")]

set_option maxRecDepth 20000 in
/-- Witness for the amended claim C1: three occurrences of `foo`
interleaved with another header; the emitted frame maps `foo` to the
value `3` of the last occurrence (not the first `1` and not the second
`2`). -/
theorem claim_C1_witness :
    ("MESSAGE" ∈ StompSpec.COMMANDS Version.v1_0 ∧
     (∀ kv ∈ c1Lines, validHeaderKV kv = true)) ∧
    ((StompParser.mk0 .v1_0).add
        (("MESSAGE".data ++ [StompSpec.LINE_DELIMITER]) ++
          ((c1Lines.map fun kv => headerLine kv.1 kv.2).flatten ++
            ([StompSpec.LINE_DELIMITER] ++
              (['k'] ++ [StompSpec.FRAME_DELIMITER])))) =
      .ok ⟨.v1_0, [.frame ⟨"MESSAGE", recordHeaders c1Lines, ['k']⟩],
           ⟨"", [], []⟩, -1, 0, [], .heartBeat⟩ ∧
     ∀ name, dictGet (recordHeaders c1Lines) name = lastOcc c1Lines name) ∧
    recordHeaders c1Lines = [("foo", "3"), ("bar", "x")] ∧
    dictGet (recordHeaders c1Lines) "foo" = some "3" ∧
    lastOcc c1Lines "foo" = some "3" :=
  ⟨⟨by decide, by decide⟩,
   claim_C1_last_header_wins .v1_0 "MESSAGE" c1Lines ['k'] (by decide)
     (by decide)
     (show StompSpec.FRAME_DELIMITER ∉ ['k'] from by decide),
   by decide, by decide, by decide⟩

/-- Claim C2: for every sequence of valid frames serialised per the §6
wire format and every partition of the byte stream into chunks, feeding
the chunks in order to a fresh parser yields exactly those frames in
order, retrievable by successive `get()` calls; the result depends only on
the concatenation of the chunks, not on the partition. -/
theorem claim_C2_parser_completeness (v : Version) (fs : List StompFrame)
    (chunks : List (List Char))
    (hv : ∀ f ∈ fs, validFrame v f = true)
    (hch : chunks.flatten = (fs.map serialiseFrame).flatten) :
    (StompParser.mk0 v).addAll chunks =
      .ok ⟨v, fs.map .frame, ⟨"", [], []⟩, -1, 0, [], .heartBeat⟩ ∧
    StompParser.getN ⟨v, fs.map .frame, ⟨"", [], []⟩, -1, 0, [], .heartBeat⟩
        fs.length = fs.map (fun f => some (.frame f)) := by
  constructor
  · rw [addAll_eq_add_flatten, hch]
    rw [show StompParser.mk0 v =
      ⟨v, [], ⟨"", [], []⟩, -1, 0, [], .heartBeat⟩ from rfl]
    rw [add_serialised_frames v [] fs hv]
    simp
  · have h := getN_frames (fs.map .frame)
      ⟨v, fs.map .frame, ⟨"", [], []⟩, -1, 0, [], .heartBeat⟩ rfl
    simpa [List.map_map] using h

def c2Frame1 : StompFrame := ⟨"RECEIPT", [("receipt-id", "message-12345")], []⟩

def c2Frame2 : StompFrame :=
  ⟨"SEND", [("destination", "/queue/a"), ("content-length", "2")],
   ['h', '\x00']⟩

/-- A character-wise partition of the serialisation of the two witness
frames: every chunk holds a single character. -/
def c2Chunks : List (List Char) :=
  (([c2Frame1, c2Frame2].map serialiseFrame).flatten).map (fun c => [c])

set_option maxRecDepth 20000 in
/-- Witness for claim C2: two concrete frames (one with `content-length`
and a NUL byte in its body), fed one character per `add` call. -/
theorem claim_C2_witness :
    (∀ f ∈ [c2Frame1, c2Frame2], validFrame .v1_0 f = true) ∧
    ((StompParser.mk0 .v1_0).addAll c2Chunks =
      .ok ⟨.v1_0, [c2Frame1, c2Frame2].map .frame, ⟨"", [], []⟩, -1, 0, [],
           .heartBeat⟩ ∧
     StompParser.getN
        ⟨.v1_0, [c2Frame1, c2Frame2].map .frame, ⟨"", [], []⟩, -1, 0, [],
         .heartBeat⟩ 2 =
       [c2Frame1, c2Frame2].map (fun f => some (.frame f))) :=
  ⟨by decide,
   claim_C2_parser_completeness .v1_0 [c2Frame1, c2Frame2] c2Chunks
     (by decide) rfl⟩

/-- Claim C3: in the body state with content-length N ≥ 0, the first N
characters are appended unconditionally (NUL bytes included) and the frame
is terminated only by a frame delimiter arriving after those N characters
(non-delimiter characters arriving in between are appended as well); with
content-length absent (−1) the body is everything up to the first frame
delimiter.  On the terminating delimiter the frame is emitted and the
parser returns to the heart-beat state. -/
theorem claim_C3_body_state (v : Version) (q : List StompToken)
    (fc : String) (fh : Headers) (N : Nat) (bs cs : List Char)
    (hcs : StompSpec.FRAME_DELIMITER ∉ cs) :
    (bs.length = N →
      StompParser.add ⟨v, q, ⟨fc, fh, []⟩, (N : Int), 0, [], .body⟩
          (bs ++ (cs ++ [StompSpec.FRAME_DELIMITER])) =
        .ok ⟨v, q ++ [.frame ⟨fc, fh, bs ++ cs⟩], ⟨"", [], []⟩, -1, 0, [],
             .heartBeat⟩) ∧
    (StompParser.add ⟨v, q, ⟨fc, fh, []⟩, -1, 0, [], .body⟩
        (cs ++ [StompSpec.FRAME_DELIMITER]) =
      .ok ⟨v, q ++ [.frame ⟨fc, fh, cs⟩], ⟨"", [], []⟩, -1, 0, [],
           .heartBeat⟩) := by
  constructor
  · intro hN
    rw [add_append_ok _ _ _ _ (by
      simpa using add_body_within v q ⟨fc, fh, []⟩ (N : Int) 0 [] bs
        (by simp [hN]))]
    rw [add_append_ok _ _ _ _ (by
      simpa using add_body_nodelim v q ⟨fc, fh, []⟩ (N : Int) bs.length
        bs cs hcs)]
    rw [add_singleton _ _ _ (step_body_delim v q fc fh [] (N : Int) _ _
      (by push_cast; omega))]
  · rw [add_append_ok _ _ _ _ (by
      simpa using add_body_nodelim v q ⟨fc, fh, []⟩ (-1) 0 [] cs hcs)]
    rw [add_singleton _ _ _ (step_body_delim v q fc fh [] (-1) _ _
      (by omega))]

/-- Witness for claim C3: a two-character body containing a NUL byte,
announced by content-length 2, followed by a stray `a` and the
delimiter. -/
theorem claim_C3_witness :
    StompSpec.FRAME_DELIMITER ∉ ['a'] ∧
    (['\x00', 'b'] : List Char).length = 2 ∧
    StompParser.add
        ⟨.v1_0, [], ⟨"MESSAGE", [("content-length", "2")], []⟩, (2 : Int),
         0, [], .body⟩
        (['\x00', 'b'] ++ (['a'] ++ [StompSpec.FRAME_DELIMITER])) =
      .ok ⟨.v1_0,
           [.frame ⟨"MESSAGE", [("content-length", "2")],
             ['\x00', 'b'] ++ ['a']⟩],
           ⟨"", [], []⟩, -1, 0, [], .heartBeat⟩ :=
  ⟨by decide, by decide,
   by
    have h := (claim_C3_body_state .v1_0 [] "MESSAGE"
      [("content-length", "2")] 2 ['\x00', 'b'] ['a'] (by decide)).1 rfl
    simpa using h⟩

/-- Claim C4: a command line whose accumulated command is outside the
version's command set raises `Invalid command` naming that command; in
particular a 1.0 parser rejects the NACK frame bytes while a 1.1 parser
accepts them and emits the NACK frame. -/
theorem claim_C4_version_guard (v : Version) (cmd : String)
    (hc : cmd ∉ StompSpec.COMMANDS v) (hne : cmd ≠ "")
    (hnl : StompSpec.LINE_DELIMITER ∉ cmd.data) :
    (StompParser.mk0 v).add (cmd.data ++ [StompSpec.LINE_DELIMITER]) =
      .error (.frameError ("Invalid command: " ++ pyReprStr cmd),
              ⟨v, [], ⟨"", [], []⟩, -1, 0, [], .command⟩) ∧
    (StompParser.mk0 .v1_0).add
        ("NACK\nsubscription:0\nmessage-id:007\n\n\x00".data) =
      .error (.frameError "Invalid command: 'NACK'",
              ⟨.v1_0, [], ⟨"", [], []⟩, -1, 0, [], .command⟩) ∧
    (StompParser.mk0 .v1_1).add
        ("NACK\nsubscription:0\nmessage-id:007\n\n\x00".data) =
      .ok ⟨.v1_1,
           [.frame ⟨"NACK", [("subscription", "0"), ("message-id", "007")],
             []⟩],
           ⟨"", [], []⟩, -1, 0, [], .heartBeat⟩ := by
  refine ⟨?_, by decide, by decide⟩
  exact add_invalid_command v [] ⟨"", [], []⟩ (-1) 0 cmd hc hne hnl

/-- Witness for claim C4 at the command `NACK` on a 1.0 parser. -/
theorem claim_C4_witness :
    ("NACK" ∉ StompSpec.COMMANDS Version.v1_0 ∧ "NACK" ≠ "" ∧
     StompSpec.LINE_DELIMITER ∉ "NACK".data) ∧
    (StompParser.mk0 .v1_0).add
        ("NACK".data ++ [StompSpec.LINE_DELIMITER]) =
      .error (.frameError ("Invalid command: " ++ pyReprStr "NACK"),
              ⟨.v1_0, [], ⟨"", [], []⟩, -1, 0, [], .command⟩) :=
  ⟨⟨by decide, by decide, by decide⟩,
   (claim_C4_version_guard .v1_0 "NACK" (by decide) (by decide)
     (by decide)).1⟩

/-- Claim C5: feeding `\n\n\n` to a fresh 1.1 parser yields exactly three
heart-beat tokens; feeding it to a fresh 1.0 parser yields nothing
(`canRead()` stays false); both parsers remain in the heart-beat state. -/
theorem claim_C5_heartbeat_tolerance :
    (StompParser.mk0 .v1_1).add ['\n', '\n', '\n'] =
      .ok ⟨.v1_1, [.heartBeat, .heartBeat, .heartBeat], ⟨"", [], []⟩, -1,
           0, [], .heartBeat⟩ ∧
    (StompParser.mk0 .v1_0).add ['\n', '\n', '\n'] =
      .ok (StompParser.mk0 .v1_0) ∧
    StompParser.canRead (StompParser.mk0 .v1_0) = false ∧
    (StompParser.mk0 .v1_0).mode = .heartBeat ∧
    (⟨.v1_1, [.heartBeat, .heartBeat, .heartBeat], ⟨"", [], []⟩, -1, 0, [],
      .heartBeat⟩ : StompParser).mode = .heartBeat :=
  ⟨by decide, by decide, by decide, by decide, by decide⟩

/-- Claim C9: when `add` raises `Invalid command`, the frames already
parsed from earlier bytes of the same stream stay queued (the carried
state's queue is exactly those frames and its buffer is flushed);
afterwards `canRead()` is true exactly when such frames exist and `get()`
returns them in FIFO order. -/
theorem claim_C9_frames_survive_error (v : Version) (fs : List StompFrame)
    (cmd : String) (hfs : ∀ f ∈ fs, validFrame v f = true)
    (hc : cmd ∉ StompSpec.COMMANDS v) (hne : cmd ≠ "")
    (hnl : StompSpec.LINE_DELIMITER ∉ cmd.data) :
    (StompParser.mk0 v).add
        ((fs.map serialiseFrame).flatten ++
          (cmd.data ++ [StompSpec.LINE_DELIMITER])) =
      .error (.frameError ("Invalid command: " ++ pyReprStr cmd),
              ⟨v, fs.map .frame, ⟨"", [], []⟩, -1, 0, [], .command⟩) ∧
    StompParser.canRead
        ⟨v, fs.map .frame, ⟨"", [], []⟩, -1, 0, [], .command⟩ =
      !fs.isEmpty ∧
    (∀ t ts, fs = t :: ts →
      StompParser.get ⟨v, fs.map .frame, ⟨"", [], []⟩, -1, 0, [], .command⟩ =
        (some (.frame t),
         ⟨v, ts.map .frame, ⟨"", [], []⟩, -1, 0, [], .command⟩)) ∧
    (fs = [] →
      (StompParser.get
        ⟨v, fs.map .frame, ⟨"", [], []⟩, -1, 0, [], .command⟩).1 = none) := by
  refine ⟨?_, ?_, ?_, ?_⟩
  · rw [show StompParser.mk0 v =
      ⟨v, [], ⟨"", [], []⟩, -1, 0, [], .heartBeat⟩ from rfl]
    rw [add_append_ok _ _ _ _ (by
      simpa using add_serialised_frames v [] fs hfs)]
    exact add_invalid_command v (fs.map .frame) ⟨"", [], []⟩ (-1) 0 cmd
      hc hne hnl
  · cases fs <;> simp [StompParser.canRead]
  · intro t ts h
    subst h
    simp [StompParser.get]
  · intro h
    subst h
    simp [StompParser.get]

/-- Witness for claim C9, replaying the parser docstring example: a
RECEIPT frame followed by a NACK frame on a 1.0 parser; the RECEIPT frame
survives the exception and is returned by `get()`. -/
theorem claim_C9_witness :
    ((∀ f ∈ [c2Frame1], validFrame Version.v1_0 f = true) ∧
     "NACK" ∉ StompSpec.COMMANDS Version.v1_0 ∧ "NACK" ≠ "" ∧
     StompSpec.LINE_DELIMITER ∉ "NACK".data) ∧
    ((StompParser.mk0 .v1_0).add
        (([c2Frame1].map serialiseFrame).flatten ++
          ("NACK".data ++ [StompSpec.LINE_DELIMITER])) =
      .error (.frameError ("Invalid command: " ++ pyReprStr "NACK"),
              ⟨.v1_0, [.frame c2Frame1], ⟨"", [], []⟩, -1, 0, [],
               .command⟩) ∧
     StompParser.canRead
        ⟨.v1_0, [.frame c2Frame1], ⟨"", [], []⟩, -1, 0, [], .command⟩ =
       true ∧
     StompParser.get
        ⟨.v1_0, [.frame c2Frame1], ⟨"", [], []⟩, -1, 0, [], .command⟩ =
       (some (.frame c2Frame1),
        ⟨.v1_0, [], ⟨"", [], []⟩, -1, 0, [], .command⟩)) := by
  have h := claim_C9_frames_survive_error .v1_0 [c2Frame1] "NACK"
    (by decide) (by decide) (by decide) (by decide)
  exact ⟨⟨by decide, by decide, by decide, by decide⟩,
    h.1, h.2.1, by simpa using h.2.2.1 c2Frame1 [] rfl⟩

/-- Claim C6: on an inbound ERROR frame, a pending connect negotiation is
failed (with a protocol error) and nothing else happens; otherwise the
frame is swallowed exactly when its `message` header contains the
`Unexpected ACK received for message-id` marker, and in every other case
the client initiates a disconnect whose failure cause is a protocol
error. -/
theorem claim_C6_onError_dispatch (connecting : Bool) (f : StompFrame) :
    (connecting = true → onError connecting f = .failNegotiation) ∧
    (connecting = false →
      strContains ((dictGet f.headers "message").getD "").data
          unexpectedAckMarker.data = true →
      onError connecting f = .swallow) ∧
    (connecting = false →
      strContains ((dictGet f.headers "message").getD "").data
          unexpectedAckMarker.data = false →
      onError connecting f = .disconnectProtocolError) := by
  refine ⟨?_, ?_, ?_⟩
  · intro h
    simp [onError, h]
  · intro h1 h2
    simp [onError, h1, h2]
  · intro h1 h2
    simp [onError, h1, h2]

def c6SwallowFrame : StompFrame :=
  ⟨"ERROR",
   [("message", "Unexpected ACK received for message-id ID:42")], []⟩

def c6OtherFrame : StompFrame :=
  ⟨"ERROR", [("message", "transaction failure")], []⟩

/-- Witness for claim C6 at three concrete situations: still connecting,
the broker-idiosyncrasy message, and an ordinary ERROR frame. -/
theorem claim_C6_witness :
    onError true c6OtherFrame = .failNegotiation ∧
    onError false c6SwallowFrame = .swallow ∧
    onError false c6OtherFrame = .disconnectProtocolError :=
  ⟨(claim_C6_onError_dispatch true c6OtherFrame).1 rfl,
   (claim_C6_onError_dispatch false c6SwallowFrame).2.1 rfl (by decide),
   (claim_C6_onError_dispatch false c6OtherFrame).2.2 rfl (by decide)⟩

/-- Claim C7: at most one disconnect and at most one connect may be in
flight; a second call raises `AlreadyRunning` without producing any new
client state. -/
theorem claim_C7_command_exclusivity (s t u : StompClientState) :
    (disconnectStart s = .ok t →
      disconnectStart t = .error (.alreadyRunning "Already disconnecting")) ∧
    (connectStart s = .ok u →
      connectStart u = .error (.alreadyRunning "connect still running")) := by
  constructor
  · intro h
    cases hd : s.disconnecting with
    | true => simp [disconnectStart, hd] at h
    | false =>
      simp only [disconnectStart, hd, Bool.false_eq_true, if_neg,
        ite_false, Except.ok.injEq] at h
      subst h
      simp [disconnectStart]
  · intro h
    cases hd : s.connectPending with
    | true => simp [connectStart, hd] at h
    | false =>
      simp only [connectStart, hd, Bool.false_eq_true, if_neg,
        ite_false, Except.ok.injEq] at h
      subst h
      simp [connectStart]

/-- Witness for claim C7: from the idle client state, a first disconnect
(respectively connect) succeeds and a second raises `AlreadyRunning`. -/
theorem claim_C7_witness :
    disconnectStart ⟨false, false⟩ = .ok ⟨true, false⟩ ∧
    disconnectStart ⟨true, false⟩ =
      .error (.alreadyRunning "Already disconnecting") ∧
    connectStart ⟨false, false⟩ = .ok ⟨false, true⟩ ∧
    connectStart ⟨false, true⟩ =
      .error (.alreadyRunning "connect still running") :=
  ⟨by decide,
   (claim_C7_command_exclusivity ⟨false, false⟩ ⟨true, false⟩
     ⟨false, true⟩).1 (by decide),
   by decide,
   (claim_C7_command_exclusivity ⟨false, false⟩ ⟨true, false⟩
     ⟨false, true⟩).2 (by decide)⟩

/-- Claim C8: for each direction, the timer computes
`remaining = max(0, threshold * period / 1000 − (now − lastStamp))` with
`lastSent` as the client stamp and `lastReceived` as the server stamp; a
period of 0 disables the direction entirely; the client direction sends a
heart-beat exactly when the remaining time is 0, and the server direction
initiates disconnect with a connection error exactly when the remaining
time is 0. -/
theorem claim_C8_heartbeat_timer (b : HeartBeater) (w : Direction)
    (now : ℚ) :
    (b.heartBeatOf w ≠ 0 →
      beatRemaining b w now =
        max (b.thresholdOf w * b.heartBeatOf w / 1000 - (now - b.lastOf w))
          0) ∧
    (b.lastOf .client = b.lastSent ∧ b.lastOf .server = b.lastReceived) ∧
    (b.heartBeatOf w = 0 → beat b w now = .disabled) ∧
    (b.clientHeartBeat ≠ 0 →
      (beat b .client now = .sendBeat ↔
        beatRemaining b .client now = 0)) ∧
    (b.serverHeartBeat ≠ 0 →
      (beat b .server now =
          .disconnectWith (.connectionError "Server heart-beat timeout") ↔
        beatRemaining b .server now = 0)) := by
  have hnonneg : ∀ w' : Direction, b.heartBeatOf w' ≠ 0 →
      (0 : ℚ) ≤ beatRemaining b w' now := by
    intro w' h
    rw [beatRemaining, if_neg h]
    exact le_max_right _ _
  refine ⟨?_, ⟨rfl, rfl⟩, ?_, ?_, ?_⟩
  · intro h
    rw [beatRemaining, if_neg h]
  · intro h
    have hr : beatRemaining b w now = -1 := by
      rw [beatRemaining, if_pos h]
    simp only [beat, hr]
    norm_num
  · intro h
    rcases lt_trichotomy (beatRemaining b .client now) 0 with h1 | h1 | h1
    · exact absurd h1 (not_lt.mpr (hnonneg .client h))
    · have e : beat b .client now = .sendBeat := by
        simp only [beat]
        rw [if_neg (not_lt.mpr (le_of_eq h1.symm)), if_pos h1]
      rw [e]
      simp [h1]
    · have e : beat b .client now =
          .reschedule (beatRemaining b .client now) := by
        simp only [beat]
        rw [if_neg (not_lt.mpr (le_of_lt h1)), if_neg (ne_of_gt h1)]
      rw [e]
      constructor
      · intro hb
        exact absurd hb (by simp)
      · intro h0
        exact absurd h0 (ne_of_gt h1)
  · intro h
    rcases lt_trichotomy (beatRemaining b .server now) 0 with h1 | h1 | h1
    · exact absurd h1 (not_lt.mpr (hnonneg .server h))
    · have e : beat b .server now =
          .disconnectWith (.connectionError "Server heart-beat timeout") := by
        simp only [beat]
        rw [if_neg (not_lt.mpr (le_of_eq h1.symm)), if_pos h1]
      rw [e]
      simp [h1]
    · have e : beat b .server now =
          .reschedule (beatRemaining b .server now) := by
        simp only [beat]
        rw [if_neg (not_lt.mpr (le_of_lt h1)), if_neg (ne_of_gt h1)]
      rw [e]
      constructor
      · intro hb
        exact absurd hb (by simp)
      · intro h0
        exact absurd h0 (ne_of_gt h1)

/-- A concrete heart-beat state: periods 1000 ms and 2000 ms, default
thresholds, both stamps at time 0. -/
def c8Beater : HeartBeater :=
  ⟨1000, 2000, 0, 0, defaultThreshold .client, defaultThreshold .server⟩

/-- Witness for claim C8: with a 1000 ms client period and threshold 0.8,
at `now = 0.8 s` the remaining time is 0 and the client direction emits a
heart-beat; with a 0 period the direction is disabled. -/
theorem claim_C8_witness :
    beat c8Beater .client (4 / 5) = .sendBeat ∧
    beat ⟨0, 0, 0, 0, defaultThreshold .client, defaultThreshold .server⟩
      .client 7 = .disabled := by
  constructor
  · have h := (claim_C8_heartbeat_timer c8Beater .client (4 / 5)).2.2.2.1
      (by norm_num [c8Beater, HeartBeater.heartBeatOf])
    refine h.mpr ?_
    norm_num [beatRemaining, c8Beater, HeartBeater.heartBeatOf,
      HeartBeater.thresholdOf, HeartBeater.lastOf, defaultThreshold]
  · exact (claim_C8_heartbeat_timer _ .client 7).2.2.1
      (by norm_num [HeartBeater.heartBeatOf])

/-- Claim C10: once a non-`None` disconnect reason is recorded, a further
non-`None` assignment leaves the original in place (the first recorded
reason wins) and the `disconnected` deferred errs back with that first
reason; assigning `None` clears the slot. -/
theorem claim_C10_first_reason_wins (r1 r2 : StompError)
    (c : Option StompError) :
    setDisconnectReason (some r1) (some r2) = some r1 ∧
    setDisconnectReason none (some r2) = some r2 ∧
    setDisconnectReason c none = none ∧
    disconnectedOutcome (setDisconnectReason (some r1) (some r2)) =
      .failure r1 ∧
    disconnectedOutcome none = .success :=
  ⟨rfl, rfl, rfl, rfl, rfl⟩

end Stompest
